import Mathlib

/-!
Verification of the tagged-union (enum) model of the repository `rust-enums`.

The sources are the Rust files `src/enums.rs`, `src/if_let.rs` and
`src/main.rs`.  Each Lean definition below is a shallow embedding of a
declaration of those files (enum definitions become inductive types,
functions become pure Lean functions, printing becomes an explicit
`List String` output state).  `main.rs` declares a module
`match_operator` whose file is absent from the sources; the dispatch
construct (Rust's built-in `match`), the `Coin` enumeration it uses, and
the Optional helpers named by the specification are therefore modelled
from the specification, each marked as such in its doc comment.
-/

/-- The enumeration `IpAddrKind` of enums.rs (defined twice verbatim in the
source; embedded once): two payload-free variants `V4` and `V6`. -/
inductive Enums.IpAddrKind where
  | V4
  | V6
deriving DecidableEq, Fintype, Repr

/-- The struct `IpAddr` of enums.rs: a kind field and an address string. -/
structure Enums.IpAddr where
  kind : Enums.IpAddrKind
  address : String
deriving DecidableEq, Repr

/-- The enumeration `IpAddress` of enums.rs: each variant carries a String. -/
inductive Enums.IpAddress where
  | V4 (address : String)
  | V6 (address : String)
deriving DecidableEq, Repr

/-- The enumeration `IpAddress2` of enums.rs: `V4` carries four `u8`
components (modelled as `Nat`; no arithmetic is performed on them) and
`V6` carries a String. -/
inductive Enums.IpAddress2 where
  | V4 (a b c d : Nat)
  | V6 (address : String)
deriving DecidableEq, Repr

/-- The enumeration `Message` of enums.rs: `Quit` with no payload, `Move`
with named i32 fields x and y, `Write` with a String, `ChangeColor` with
three i32 values (i32 modelled as `Int`; no arithmetic is performed). -/
inductive Enums.Message where
  | Quit
  | Move (x y : Int)
  | Write (s : String)
  | ChangeColor (r g b : Int)
deriving DecidableEq, Repr

/-- The enumeration `Option<T>` of enums.rs (`Some(t)` / `None`), the
Optional of the specification: `Some` is `Present`, `None` is `Absent`. -/
inductive Enums.Option (T : Type) where
  | Some (t : T)
  | None
deriving DecidableEq, Repr

/-- The method `call` of `impl Message` in enums.rs.  Its body is empty
(`// method body would be defined here`), it takes `&self` and returns
unit; a world state `s` is threaded explicitly to make side effects
observable, and the empty body leaves it untouched. -/
def Enums.Message.call (_self : Enums.Message) (s : σ) : Unit × σ :=
  ((), s)

/-- Variant discriminator for `Message.Quit`. -/
def Enums.Message.isQuit : Enums.Message → Bool
  | .Quit => true
  | _ => false

/-- Variant discriminator for `Message.Move`. -/
def Enums.Message.isMove : Enums.Message → Bool
  | .Move _ _ => true
  | _ => false

/-- Variant discriminator for `Message.Write`. -/
def Enums.Message.isWrite : Enums.Message → Bool
  | .Write _ => true
  | _ => false

/-- Variant discriminator for `Message.ChangeColor`. -/
def Enums.Message.isChangeColor : Enums.Message → Bool
  | .ChangeColor _ _ _ => true
  | _ => false

/-- Modelled from the spec: the Optional helper `is_present` listed in
§6 (`Optional-specific helpers`); its code is not under src/. -/
def Enums.Option.is_present : Enums.Option T → Bool
  | .Some _ => true
  | .None => false

/-- Modelled from the spec: the Optional helper `unwrap_or(default)`
listed in §6; its code is not under src/.  Returns the payload of
`Some`, the default on `None`. -/
def Enums.Option.unwrap_or : Enums.Option T → T → T
  | .Some x, _ => x
  | .None, d => d

/-- The run-time fault of the specification's §7 raised by the explicit
unwrap operation on an absent value; carries the caller's error text. -/
structure UnwrapFailure where
  message : String
deriving DecidableEq, Repr

/-- Modelled from the spec: the Optional helper `unwrap_or_fail(error)`
listed in §6; its code is not under src/.  The only operation of the
model whose result is fallible: `Absent` becomes an `UnwrapFailure`. -/
def Enums.Option.unwrap_or_fail : Enums.Option T → String → Except UnwrapFailure T
  | .Some x, _ => .ok x
  | .None, e => .error ⟨e⟩

/-- Modelled from the spec: a pattern of the full-dispatch construct of
§4.1 over an enumeration with variant set `V` — either a named variant
or the wildcard `_`.  The construct is Rust's built-in `match`
expression; the repository's `match_operator` module is declared in
main.rs but its file is absent from src/. -/
inductive Pattern (V : Type) where
  | variant (v : V)
  | wildcard
deriving DecidableEq, Repr

/-- A pattern matches an instance's tag if it names that tag, and the
wildcard matches every tag (spec §4.1, dispatch steps 2 and 4). -/
def Pattern.matchesTag [DecidableEq V] : Pattern V → V → Bool
  | .variant w, v => decide (v = w)
  | .wildcard, _ => true

/-- Modelled from the spec: the run-time part of the full-dispatch
construct — evaluate the arms in declaration order and return the first
matching arm's handler (spec §4.1, dispatch steps 1–4). -/
def dispatch [DecidableEq V] (arms : List (Pattern V × H)) (v : V) : Option H :=
  match arms with
  | [] => none
  | (p, h) :: rest => if p.matchesTag v then some h else dispatch rest v

/-- Modelled from the spec: the definition-time exhaustiveness check of
§4.1 step 5 — every variant of the (closed, finite) enumeration must be
matched by some arm. -/
def exhaustive [DecidableEq V] [Fintype V] (arms : List (Pattern V × H)) : Bool :=
  decide (∀ v : V, arms.any (fun a => a.1.matchesTag v) = true)

/-- Modelled from the spec: the full-dispatch construction
`dispatch(instance, ordered_pattern_handler_list)` of §6 is created at
definition time, before any instance is dispatched: a non-exhaustive arm
list is rejected (`none`) and an exhaustive one is accepted as is. -/
def defineDispatch [DecidableEq V] [Fintype V] (arms : List (Pattern V × H)) :
    Option (List (Pattern V × H)) :=
  if exhaustive arms then some arms else none

/-- Modelled from the spec: one arm of a dispatch over an Optional
scrutinee (the shape used by fn a and fn b of if_let.rs).  A pattern may
carry a literal sub-value (`Some(3)`), bind the payload (`Some(x)`),
name the `None` tag, or be the wildcard `_`; handlers of payload-binding
arms receive the bound payload (spec §4.1 step 3). -/
inductive OptArm (T R : Type) where
  | someLit (v : T) (h : T → R)
  | someVar (h : T → R)
  | noneArm (h : R)
  | wildcard (h : R)

/-- Trying one arm against an instance (spec §4.1 step 2): the tags must
agree, a literal sub-value must additionally equal the payload, and on a
match the handler runs with the payload bound. -/
def OptArm.tryMatch [DecidableEq T] : OptArm T R → Enums.Option T → Option R
  | .someLit v h, .Some x => if x = v then some (h x) else none
  | .someVar h, .Some x => some (h x)
  | .noneArm h, .None => some h
  | .wildcard h, _ => some h
  | _, _ => none

/-- Modelled from the spec: the run-time part of a full dispatch over an
Optional scrutinee — try the arms in declaration order, return the first
match's handler result, with no fallthrough (spec §4.1 steps 1–4). -/
def dispatchOpt [DecidableEq T] (arms : List (OptArm T R)) (x : Enums.Option T) :
    Option R :=
  match arms with
  | [] => none
  | a :: rest =>
    match a.tryMatch x with
    | some r => some r
    | none => dispatchOpt rest x

/-- Modelled from the spec: a full dispatch run for its effect on a
state `σ` (each handler is a state transformer); an unmatched instance
leaves the state unchanged. -/
def runDispatch [DecidableEq T] (arms : List (OptArm T (σ → σ)))
    (x : Enums.Option T) (s : σ) : σ :=
  match dispatchOpt arms x with
  | some f => f s
  | none => s

/-- Modelled from the spec: the partial-dispatch call
`dispatch_if(instance, single_pattern, handler, optional_fallback)` of
§6 — Rust's `if let` (with optional `else`): the handler runs only if
the single arm matches; otherwise the fallback runs if supplied, and
nothing happens if not. -/
def dispatch_if [DecidableEq T] (x : Enums.Option T) (arm : OptArm T (σ → σ))
    (fallback : Option (σ → σ)) (s : σ) : σ :=
  match arm.tryMatch x with
  | some f => f s
  | none =>
    match fallback with
    | some g => g s
    | none => s

/-- fn a of if_let.rs: the scrutinee is `Some(0u8)` and the arms are
`Some(3) => println!("three")` and `_ => ()`; printing is modelled as
appending to a `List String` output state, initially empty. -/
def IfLet.a : List String :=
  runDispatch
    [OptArm.someLit 3 (fun _ out => out ++ ["three"]),
     OptArm.wildcard (fun out => out)]
    (Enums.Option.Some (0 : Nat)) []

/-- fn b of if_let.rs: `if let Some(3) = some_u8_value` with no `else`;
the source's `some_u8_value` is a free (undefined) variable there, so it
is a parameter here, together with the print-output state. -/
def IfLet.b (some_u8_value : Enums.Option Nat) (out : List String) : List String :=
  dispatch_if some_u8_value
    (OptArm.someLit 3 (fun _ out => out ++ ["three"])) none out

/-- Modelled from the spec: the state payload of the `Quarter` variant
of `Coin`; `Coin` is used by fn c and fn d of if_let.rs but defined in
the `match_operator` module, which main.rs declares and src/ lacks. -/
inductive UsState where
  | Alabama
  | Alaska
deriving DecidableEq, Repr

/-- Debug formatting of a `UsState` (the `{:?}` of the println). -/
def UsState.debugStr : UsState → String
  | .Alabama => "Alabama"
  | .Alaska => "Alaska"

/-- Modelled from the spec: the `Coin` enumeration dispatched by fn c
and fn d of if_let.rs; only its `Quarter(state)` variant is named
there, the others fall to the wildcard / else arm. -/
inductive Coin where
  | Penny
  | Nickel
  | Dime
  | Quarter (state : UsState)
deriving DecidableEq, Repr

/-- The single-pattern test of `Coin::Quarter(state)`: the payload bound
by the pattern when it matches, nothing otherwise. -/
def Coin.tryQuarter : Coin → Option UsState
  | .Quarter state => some state
  | _ => none

/-- fn c of if_let.rs: `count = 0`, then a full `match` on the coin with
arms `Quarter(state) => println!(...)` and `_ => count += 1`; result is
the final count and the printed output. -/
def IfLet.c (coin : Coin) : Nat × List String :=
  match coin with
  | Coin.Quarter state =>
      (0, ["State quarter from " ++ state.debugStr ++ "!"])
  | _ => (0 + 1, [])

/-- fn d of if_let.rs: the same computation as fn c written with
`if let Coin::Quarter(state) = coin { ... } else { count += 1 }`,
embedded by testing the single pattern and branching on the binding. -/
def IfLet.d (coin : Coin) : Nat × List String :=
  match coin.tryQuarter with
  | some state =>
      (0, ["State quarter from " ++ state.debugStr ++ "!"])
  | none => (0 + 1, [])

/-- Modelled from the spec: the types of the definition-time check of §7
(`TypeMismatchError`) — the bare payload type `i8` and Optional types
over any payload type.  fn g of enums.rs is the deliberately
non-compiling example such a check must reject. -/
inductive Ty where
  | i8
  | optional (t : Ty)
deriving DecidableEq, Repr

/-- Modelled from the spec: the expression fragment exercised by fn g of
enums.rs — integer literals, the `Some` constructor, `None` at an
annotated payload type, addition of bare values, and the explicit
`unwrap_or` dispatch from an Optional to its payload type. -/
inductive Expr where
  | lit (n : Int)
  | someE (e : Expr)
  | noneE (t : Ty)
  | add (a b : Expr)
  | unwrapOr (e d : Expr)
deriving DecidableEq, Repr

/-- Modelled from the spec: the definition-time type check that must
reject mixing `Optional<T>` with the bare `T` (§7): addition is defined
only at the bare type `i8`, an Optional type is never implicitly
converted, and `unwrap_or` is the explicit dispatch from `Optional<T>`
to `T`. -/
def typeOf : Expr → Option Ty
  | .lit _ => some Ty.i8
  | .someE e => (typeOf e).map Ty.optional
  | .noneE t => some (Ty.optional t)
  | .add a b =>
    match typeOf a, typeOf b with
    | some Ty.i8, some Ty.i8 => some Ty.i8
    | _, _ => none
  | .unwrapOr e d =>
    match typeOf e, typeOf d with
    | some (Ty.optional t), some t' => if t = t' then some t else none
    | _, _ => none

/-- fn g of enums.rs: `let x: i8 = 5; let y: Option<i8> = Some(5);
let sum = x + y;` — the sum adds a bare i8 to an Option<i8> and is the
line the compiler rejects with error E0277. -/
def gSum : Expr := Expr.add (Expr.lit 5) (Expr.someE (Expr.lit 5))

/-- On an arm list without wildcards, dispatch at tag `v` finds the
first arm naming `v` whenever some arm names `v`: arms naming other
variants are skipped and never intercept `v`. -/
theorem dispatch_finds_variant_arm [DecidableEq V] {H : Type}
    (arms : List (Pattern V × H)) (v : V)
    (hmem : ∃ h, (Pattern.variant v, h) ∈ arms)
    (hnowild : ∀ a ∈ arms, a.1 ≠ Pattern.wildcard) :
    ∃ h, dispatch arms v = some h ∧ (Pattern.variant v, h) ∈ arms := by
  induction arms with
  | nil => simp at hmem
  | cons a rest ih =>
      obtain ⟨p, h'⟩ := a
      cases hp : p with
      | wildcard => exact absurd hp (hnowild (p, h') (by simp))
      | variant w =>
          subst hp
          by_cases hw : v = w
          · subst hw
            exact ⟨h', by simp [dispatch, Pattern.matchesTag], by simp⟩
          · have hdisp : dispatch ((Pattern.variant w, h') :: rest) v =
                dispatch rest v := by
              simp [dispatch, Pattern.matchesTag, hw]
            obtain ⟨h, hmem'⟩ := hmem
            have hrest : (Pattern.variant v, h) ∈ rest := by
              rcases List.mem_cons.mp hmem' with hhead | htail
              · exfalso
                apply hw
                have h1 : Pattern.variant v = Pattern.variant w := by
                  simpa using congrArg Prod.fst hhead
                exact Pattern.variant.inj h1
              · exact htail
            obtain ⟨h0, hd0, hm0⟩ :=
              ih ⟨h, hrest⟩ (fun a ha => hnowild a (List.mem_cons_of_mem _ ha))
            exact ⟨h0, hdisp.trans hd0, List.mem_cons_of_mem _ hm0⟩

/-- A wildcard arm matches every instance and returns its handler. -/
theorem OptArm.tryMatch_wildcard [DecidableEq T] (h : R) (x : Enums.Option T) :
    (OptArm.wildcard h).tryMatch x = some h := by
  cases x <;> rfl

/-- Claim C1: a full-dispatch construction whose arm list omits at least
one variant `v0` and contains no wildcard is rejected at definition time
(`defineDispatch` takes no instance, so the rejection is independent of
whatever instances are ever produced at run time). -/
theorem defineDispatch_rejects_nonexhaustive [DecidableEq V] [Fintype V]
    (H : Type) (arms : List (Pattern V × H)) (v0 : V)
    (homit : ∀ a ∈ arms, a.1 ≠ Pattern.variant v0)
    (hnowild : ∀ a ∈ arms, a.1 ≠ Pattern.wildcard) :
    defineDispatch arms = none := by
  have hex : exhaustive arms = false := by
    apply decide_eq_false
    intro hall
    have h0 := hall v0
    rw [List.any_eq_true] at h0
    obtain ⟨a, ha, hmatch⟩ := h0
    cases hp : a.1 with
    | variant w =>
        have hw : w ≠ v0 := fun h => homit a ha (by rw [hp, h])
        rw [hp] at hmatch
        simp [Pattern.matchesTag] at hmatch
        exact hw hmatch.symm
    | wildcard => exact hnowild a ha hp
  simp [defineDispatch, hex]

/-- Witness for C1: over `IpAddrKind`, the arm list `[V4 => 0]` omits
`V6`, has no wildcard, and is rejected. -/
theorem defineDispatch_rejects_nonexhaustive_witness :
    defineDispatch [(Pattern.variant Enums.IpAddrKind.V4, (0 : Nat))] = none :=
  defineDispatch_rejects_nonexhaustive Nat
    [(Pattern.variant Enums.IpAddrKind.V4, 0)] Enums.IpAddrKind.V6
    (by decide) (by decide)


/-- Claim C2: a full dispatch whose arm list names every variant of the
enumeration exactly once (in any order, no wildcard) succeeds on every
instance: it selects a handler that is paired in the arm list with the
instance's own variant, so the dispatch is total on the enumeration. -/
theorem dispatch_total_on_exact_cover [DecidableEq V]
    (H : Type) (arms : List (Pattern V × H))
    (hcover : ∀ u : V, arms.countP (fun a => a.1 = Pattern.variant u) = 1)
    (hnowild : ∀ a ∈ arms, a.1 ≠ Pattern.wildcard)
    (v : V) :
    ∃ h, dispatch arms v = some h ∧ (Pattern.variant v, h) ∈ arms := by
  apply dispatch_finds_variant_arm arms v _ hnowild
  have hpos : 0 < arms.countP (fun a => a.1 = Pattern.variant v) := by
    rw [hcover v]; exact Nat.zero_lt_one
  rw [List.countP_pos_iff] at hpos
  obtain ⟨a, ha, hav⟩ := hpos
  refine ⟨a.2, ?_⟩
  have : a.1 = Pattern.variant v := by simpa using hav
  rw [← this]
  exact ha

/-- Witness for C2: over `IpAddrKind` with arms `[V6 => 1, V4 => 2]`
(every variant exactly once, out of declaration order), dispatching the
instance `V4` succeeds with the handler paired with `V4`. -/
theorem dispatch_total_on_exact_cover_witness :
    ∃ h, dispatch [(Pattern.variant Enums.IpAddrKind.V6, (1 : Nat)),
        (Pattern.variant Enums.IpAddrKind.V4, 2)] Enums.IpAddrKind.V4 = some h ∧
      (Pattern.variant Enums.IpAddrKind.V4, h) ∈
        [(Pattern.variant Enums.IpAddrKind.V6, (1 : Nat)),
         (Pattern.variant Enums.IpAddrKind.V4, 2)] :=
  dispatch_total_on_exact_cover Nat
    [(Pattern.variant Enums.IpAddrKind.V6, 1),
     (Pattern.variant Enums.IpAddrKind.V4, 2)]
    (by decide) (by decide) Enums.IpAddrKind.V4

/-- Claim C3: the Optional round-trip — `unwrap_or` applied to a wrapped
value `Some x` (the spec's `Present(x)`) returns `x` for every `x` and
every default, and applied to `None` (the spec's `Absent`) returns the
default. -/
theorem unwrap_or_round_trip (T : Type) (x d : T) :
    (Enums.Option.Some x).unwrap_or d = x ∧
    (Enums.Option.None : Enums.Option T).unwrap_or d = d :=
  ⟨rfl, rfl⟩

/-- Claim C4: literal sub-pattern precedence and first-match semantics —
on the instance `Some 3` and the ordered arms `[(Some(3), h1),
(Some(_), h2), (None, h3)]`, dispatch evaluates `h1` on the bound
payload `3`, whatever `h2` and `h3` are (so neither is ever invoked);
and in general the first arm that matches decides the dispatch with no
fallthrough to later arms. -/
theorem literal_subpattern_precedence_first_match :
    (∀ (R : Type) (h1 h2 : Nat → R) (h3 : R),
      dispatchOpt [OptArm.someLit 3 h1, OptArm.someVar h2, OptArm.noneArm h3]
        (Enums.Option.Some 3) = some (h1 3)) ∧
    (∀ (T R : Type) [DecidableEq T] (a : OptArm T R) (rest : List (OptArm T R))
        (x : Enums.Option T) (r : R),
      a.tryMatch x = some r → dispatchOpt (a :: rest) x = some r) := by
  constructor
  · intro R h1 h2 h3
    simp [dispatchOpt, OptArm.tryMatch]
  · intro T R _ a rest x r h
    simp [dispatchOpt, h]

/-- Witness for C4 at concrete inputs: the literal arm fires on `Some 3`,
and a matching head arm is taken without looking at the tail. -/
theorem literal_subpattern_precedence_first_match_witness :
    dispatchOpt [OptArm.someLit 3 (fun n => n + 10),
        OptArm.someVar (fun n => n + 20), OptArm.noneArm 99]
      (Enums.Option.Some 3) = some 13 ∧
    dispatchOpt [OptArm.noneArm 5, OptArm.wildcard (7 : Nat)]
      (Enums.Option.None : Enums.Option Nat) = some 5 :=
  ⟨literal_subpattern_precedence_first_match.1 Nat
      (fun n => n + 10) (fun n => n + 20) 99,
   literal_subpattern_precedence_first_match.2 Nat Nat
      (OptArm.noneArm 5) [OptArm.wildcard 7]
      (Enums.Option.None : Enums.Option Nat) 5 rfl⟩

/-- Claim C5: a partial dispatch whose single arm does not match the
instance and which has no fallback leaves the state unchanged (no
observable side effect); in particular fn b of if_let.rs prints nothing
on any instance other than `Some 3`. -/
theorem partial_dispatch_no_match_no_effect :
    (∀ (T σ : Type) [DecidableEq T] (x : Enums.Option T)
        (arm : OptArm T (σ → σ)) (s : σ),
      arm.tryMatch x = none → dispatch_if x arm none s = s) ∧
    (∀ (v : Enums.Option Nat) (out : List String),
      v ≠ Enums.Option.Some 3 → IfLet.b v out = out) := by
  constructor
  · intro T σ _ x arm s h
    simp [dispatch_if, h]
  · intro v out hv
    cases v with
    | None => rfl
    | Some x =>
        have hx : x ≠ 3 := fun h => hv (by rw [h])
        simp [IfLet.b, dispatch_if, OptArm.tryMatch, hx]

/-- Witness for C5 at concrete inputs: a non-matching partial dispatch
returns the state as is, and fn b on `Some 0` prints nothing. -/
theorem partial_dispatch_no_match_no_effect_witness :
    dispatch_if (Enums.Option.Some (4 : Nat))
      (OptArm.noneArm (fun (s : Nat) => s + 1)) none 11 = 11 ∧
    IfLet.b (Enums.Option.Some 0) [] = [] :=
  ⟨partial_dispatch_no_match_no_effect.1 Nat Nat (Enums.Option.Some 4)
      (OptArm.noneArm (fun s => s + 1)) 11 rfl,
   partial_dispatch_no_match_no_effect.2 (Enums.Option.Some 0) []
      (by simp)⟩

/-- Claim C6: a partial dispatch with an explicit fallback handler is
the full dispatch whose arm list is the single arm followed by a
wildcard bound to the fallback — same selected handler, same result and
state, on every instance; in particular fn c and fn d of if_let.rs
agree on every coin. -/
theorem dispatch_if_with_fallback_eq_match_wildcard :
    (∀ (T σ : Type) [DecidableEq T] (x : Enums.Option T)
        (arm : OptArm T (σ → σ)) (fb : σ → σ) (s : σ),
      dispatch_if x arm (some fb) s =
        runDispatch [arm, OptArm.wildcard fb] x s) ∧
    (∀ coin : Coin, IfLet.c coin = IfLet.d coin) := by
  constructor
  · intro T σ _ x arm fb s
    cases h : arm.tryMatch x with
    | none =>
        simp only [dispatch_if, runDispatch, dispatchOpt, h,
          OptArm.tryMatch_wildcard]
    | some f =>
        simp only [dispatch_if, runDispatch, dispatchOpt, h]
  · intro coin
    cases coin <;> rfl

/-- Claim C7: `unwrap_or_fail` raises `UnwrapFailure` exactly on `Absent`
(`None`), and it is the sole operation through which absence becomes a
run-time fault: the other Optional helpers applied to `None` return
ordinary values (`unwrap_or` the default, `is_present` the answer
`false`). -/
theorem unwrap_or_fail_faults_iff_absent (T : Type) :
    (∀ (o : Enums.Option T) (e : String),
      (∃ f, o.unwrap_or_fail e = Except.error f) ↔ o = Enums.Option.None) ∧
    (∀ d : T, (Enums.Option.None : Enums.Option T).unwrap_or d = d) ∧
    (Enums.Option.None : Enums.Option T).is_present = false := by
  refine ⟨?_, fun d => rfl, rfl⟩
  intro o e
  cases o with
  | Some x =>
      constructor
      · rintro ⟨f, hf⟩
        simp [Enums.Option.unwrap_or_fail] at hf
      · intro h
        cases h
  | None =>
      exact ⟨fun _ => rfl, fun _ => ⟨⟨e⟩, rfl⟩⟩

/-- Claim C8: an `Optional<T>` is never interchangeable with a bare `T`
— fn g's sum is rejected before the program runs; any accepted addition
has both operands at the bare type `i8`, so an operand of Optional type
makes the addition ill-typed; `None` only ever has an Optional type,
which is distinct from `i8` (no implicit conversion); and the same sum
becomes well-typed once the Optional operand goes through the explicit
`unwrap_or` dispatch. -/
theorem optional_not_interchangeable_with_bare :
    typeOf gSum = none ∧
    (∀ (a b : Expr) (t : Ty), typeOf (Expr.add a b) = some t →
      typeOf a = some Ty.i8 ∧ typeOf b = some Ty.i8) ∧
    (∀ (a b : Expr) (t : Ty), typeOf b = some (Ty.optional t) →
      typeOf (Expr.add a b) = none) ∧
    (∀ t : Ty, Ty.optional t ≠ Ty.i8 ∧
      typeOf (Expr.noneE t) = some (Ty.optional t)) ∧
    typeOf (Expr.add (Expr.lit 5)
      (Expr.unwrapOr (Expr.someE (Expr.lit 5)) (Expr.lit 0))) = some Ty.i8 := by
  refine ⟨rfl, ?_, ?_, fun t => ⟨fun h => Ty.noConfusion h, rfl⟩, rfl⟩
  · intro a b t h
    simp only [typeOf] at h
    split at h
    · rename_i ha hb
      exact ⟨ha, hb⟩
    · exact absurd h (by simp)
  · intro a b t hb
    simp only [typeOf]
    rw [hb]
    cases ha : typeOf a with
    | none => rfl
    | some ta => cases ta <;> rfl

/-- Witness for C8 at a concrete input: a well-typed addition has both
operands at the bare type. -/
theorem optional_not_interchangeable_with_bare_witness :
    typeOf (Expr.lit 1) = some Ty.i8 ∧ typeOf (Expr.lit 2) = some Ty.i8 :=
  optional_not_interchangeable_with_bare.2.1 (Expr.lit 1) (Expr.lit 2)
    Ty.i8 rfl

/-- Claim C9: every `Message` instance has exactly one active variant
(the four variant discriminators sum to one), and the constructed tag
and payload are immutable: an instance's payload is uniquely determined
by the instance (constructors are injective and pairwise disjoint), and
the one operation attached to `Message` (`call`) takes the instance by
shared reference and returns it unused, mutating nothing. -/
theorem message_one_active_variant_immutable :
    (∀ m : Enums.Message,
      (m.isQuit.toNat + m.isMove.toNat + m.isWrite.toNat +
        m.isChangeColor.toNat) = 1) ∧
    (∀ x y x' y' : Int,
      Enums.Message.Move x y = Enums.Message.Move x' y' → x = x' ∧ y = y') ∧
    (∀ x y : Int, Enums.Message.Move x y ≠ Enums.Message.Quit) ∧
    (∀ (σ : Type) (s : σ) (m : Enums.Message), m.call s = ((), s)) := by
  refine ⟨?_, ?_, ?_, fun σ s m => rfl⟩
  · intro m
    cases m <;> rfl
  · intro x y x' y' h
    cases h
    exact ⟨rfl, rfl⟩
  · intro x y h
    cases h

/-- Witness for C9 at concrete inputs. -/
theorem message_one_active_variant_immutable_witness :
    (3 : Int) = 3 ∧ (4 : Int) = 4 :=
  message_one_active_variant_immutable.2.1 3 4 3 4 rfl

/-- Claim C10: the attached method `call` of `Message` is defined
uniformly for every variant (`Quit`, `Move`, `Write`, `ChangeColor`);
on every instance it returns unit and leaves the threaded state — hence
all observable state — unchanged. -/
theorem message_call_no_side_effect (σ : Type) (s : σ) :
    (∀ m : Enums.Message, m.call s = ((), s)) ∧
    Enums.Message.Quit.call s = ((), s) ∧
    (∀ x y : Int, (Enums.Message.Move x y).call s = ((), s)) ∧
    (∀ t : String, (Enums.Message.Write t).call s = ((), s)) ∧
    (∀ r g b : Int, (Enums.Message.ChangeColor r g b).call s = ((), s)) :=
  ⟨fun _ => rfl, rfl, fun _ _ => rfl, fun _ => rfl, fun _ _ _ => rfl⟩

/-- Witness for C3 at concrete inputs: unwrapping `Some 7` with default
`9` gives `7`, unwrapping `None` gives `9`. -/
theorem unwrap_or_round_trip_witness :
    (Enums.Option.Some 7).unwrap_or 9 = 7 ∧
    (Enums.Option.None : Enums.Option Nat).unwrap_or 9 = 9 :=
  unwrap_or_round_trip Nat 7 9

/-- Witness for C6 at concrete coins: fn c and fn d agree on a state
quarter and on a penny. -/
theorem dispatch_if_with_fallback_eq_match_wildcard_witness :
    IfLet.c (Coin.Quarter UsState.Alabama) =
      IfLet.d (Coin.Quarter UsState.Alabama) ∧
    IfLet.c Coin.Penny = IfLet.d Coin.Penny :=
  ⟨dispatch_if_with_fallback_eq_match_wildcard.2 (Coin.Quarter UsState.Alabama),
   dispatch_if_with_fallback_eq_match_wildcard.2 Coin.Penny⟩

/-- Witness for C7 at a concrete input: unwrapping the absent value does
raise an `UnwrapFailure`. -/
theorem unwrap_or_fail_faults_iff_absent_witness :
    ∃ f, (Enums.Option.None : Enums.Option Nat).unwrap_or_fail "boom" =
      Except.error f :=
  ((unwrap_or_fail_faults_iff_absent Nat).1 Enums.Option.None "boom").mpr rfl

/-- Witness for C10 at the instance of fn e of enums.rs:
`Message::Write(String::from("hello")).call()` changes nothing. -/
theorem message_call_no_side_effect_witness :
    (Enums.Message.Write "hello").call (0 : Nat) = ((), 0) :=
  (message_call_no_side_effect Nat 0).1 (Enums.Message.Write "hello")
